import Mathlib

namespace Net

/-!  Shallow embedding of the per-connection protocol engine of the
     web server: the HTTP session with its pipelining queue
     (src/web_server/http_session.cc, include/net/web_server/custom_queue.h,
     include/net/web_server/pending_request.h), the WebSocket session
     (src/web_server/websocket_session.cc, include/net/web_server/websocket_session.h),
     the shared settings block (include/net/web_server/web_server_settings.h),
     content negotiation (include/net/web_server/content_encoding.h) and the
     response helpers (src/web_server/responses.cc).  -/

/-- A pending exchange slot of the pipelining queue.  While the handler has
not completed the exchange the slot is empty (in pending_request.h the
response_ pointer is null, so is_finished() is false); once the handler
stores a response the slot records the response's need_eof flag
(true means the response demands connection closure after the write). -/
abbrev slot : Type := Option Bool

/-- State of one HTTP session together with its pipelining queue.
items_ is the queue contents in arrival order (custom_queue.h items_),
write_active_ mirrors the session flag of the same name, wInFlight and
rInFlight count asynchronous transport writes and reads outstanding,
base counts exchanges already dequeued, writeLog records the arrival
index of every response handed to the transport write in call order,
readsIssued counts calls of do_read, and closed_ records that the
session has shut the connection down. -/
structure hstate where
  items_ : List slot
  write_active_ : Bool
  wInFlight : Nat
  rInFlight : Nat
  base : Nat
  writeLog : List Nat
  readsIssued : Nat
  closed_ : Bool
deriving DecidableEq

/-- queue::is_full (custom_queue.h line 37): items_.size() >= limit_. -/
def qIsFull (limit : Nat) (s : hstate) : Bool := limit ≤ s.items_.length

/-- queue::send_next (custom_queue.h lines 48-55): if the queue is empty or
the front entry is not finished, do nothing; otherwise set write_active_
and hand the front entry's response to the asynchronous transport write
(pending_request.h response_impl::send).  The written exchange's arrival
index is the current base. -/
def sendNext (s : hstate) : hstate :=
  match s.items_ with
  | some _ :: _ =>
      { s with write_active_ := true, wInFlight := s.wInFlight + 1,
               writeLog := s.writeLog ++ [s.base] }
  | _ => s

/-- http_session::send_next_response (http_session.cc lines 207-212):
a no-op while a write is active, otherwise queue_.send_next(). -/
def send_next_response (s : hstate) : hstate :=
  if s.write_active_ then s else sendNext s

/-- http_session::do_read issuing one more asynchronous read. -/
def doRead (s : hstate) : hstate :=
  { s with rInFlight := s.rInFlight + 1, readsIssued := s.readsIssued + 1 }

/-- on_read for an ordinary request (http_session.cc lines 167-183): the
completed read appends a fresh pending exchange (queue::add_entry) and
dispatches the request to the handler; then, if the queue has not
reached its limit, another read is started to pipeline the next request. -/
def onArrive (limit : Nat) (s : hstate) : hstate :=
  if s.rInFlight = 0 then s
  else
    let t := { s with rInFlight := s.rInFlight - 1, items_ := s.items_ ++ [none] }
    if qIsFull limit t then t else doRead t

/-- The handler's completion callback for exchange i (pending_request.h
operator(): store the response, then send_next_response).  A completion
for a slot that is already filled or out of range is a contract violation
and is modelled as a no-op. -/
def onComplete (i : Nat) (close : Bool) (s : hstate) : hstate :=
  if s.items_.getD i (some true) = none then
    send_next_response { s with items_ := s.items_.set i (some close) }
  else s

/-- on_write for a successful write (http_session.cc lines 185-205 and
custom_queue.h lines 41-46): clear write_active_, dequeue the head entry
remembering whether the queue had been at capacity, close the connection
if the response demanded it, otherwise continue with the next response
when the new head is already finished, otherwise resume reading exactly
when the queue had been full.  The branch that continues writing the next
ready response is Modelled from the spec (section 4.1 Writing transition):
the configurable http_session driver (http_session.h) is not under src/;
the superseded driver in http_session.cc returns to the event loop here. -/
def onWriteDone (limit : Nat) (s : hstate) : hstate :=
  if s.wInFlight = 0 then s
  else
    match s.items_ with
    | [] => s
    | none :: _ => s
    | some close :: rest =>
        let wasFull := qIsFull limit s
        let t := { s with wInFlight := s.wInFlight - 1, write_active_ := false,
                          items_ := rest, base := s.base + 1 }
        if close then { t with closed_ := true }
        else
          match rest with
          | some _ :: _ => sendNext t
          | _ => if wasFull then doRead t else t

/-- Events of one HTTP connection: a read completes with an ordinary
parsed request, the handler completes exchange i with a response whose
need_eof flag is close, or the in-flight transport write completes
successfully. -/
inductive http_act where
  | arrive : http_act
  | complete (i : Nat) (close : Bool) : http_act
  | writeDone : http_act
deriving DecidableEq

/-- One step of the session state machine; once closed the session
ignores further events. -/
def step (limit : Nat) (s : hstate) (a : http_act) : hstate :=
  if s.closed_ then s
  else
    match a with
    | .arrive => onArrive limit s
    | .complete i close => onComplete i close s
    | .writeDone => onWriteDone limit s

/-- Initial session state: run() issues the first do_read. -/
def hinit : hstate :=
  { items_ := [], write_active_ := false, wInFlight := 0, rInFlight := 1,
    base := 0, writeLog := [], readsIssued := 1, closed_ := false }

/-- Execution of a whole event trace from session start. -/
def run (limit : Nat) (l : List http_act) : hstate := l.foldl (step limit) hinit

/-- Session invariant: the write_active_ flag tracks the number of
outstanding transport writes, at most one read is outstanding, a full
queue means reading is paused, an active write is always the finished
head entry, the write log is exactly the arrival indices written so far
in order, and the queue never exceeds its limit. -/
def HInv (limit : Nat) (s : hstate) : Prop :=
  s.wInFlight = (if s.write_active_ then 1 else 0) ∧
  s.rInFlight ≤ 1 ∧
  (qIsFull limit s = true → s.rInFlight = 0) ∧
  (s.write_active_ = true → ∃ c rest, s.items_ = some c :: rest) ∧
  s.writeLog = List.range s.base ++ (if s.write_active_ then [s.base] else []) ∧
  s.items_.length ≤ limit

lemma hinv_hinit (limit : Nat) (hl : 1 ≤ limit) : HInv limit hinit := by
  refine ⟨rfl, by decide, ?_, by simp [hinit], by simp [hinit], by simp [hinit]⟩
  intro h
  simp [qIsFull, hinit] at h
  omega

lemma hinv_sendNext (limit : Nat) (s : hstate) (h : HInv limit s)
    (hw : s.write_active_ = false) : HInv limit (sendNext s) := by
  obtain ⟨h1, h2, h3, h4, h5, h6⟩ := h
  unfold sendNext
  match hi : s.items_ with
  | [] => exact ⟨h1, h2, h3, h4, h5, h6⟩
  | none :: rest => exact ⟨h1, h2, h3, h4, h5, h6⟩
  | some c :: rest =>
    refine ⟨by simp [hw] at h1; simp [h1], h2, ?_, ?_, ?_, by simpa [hi] using h6⟩
    · intro hf
      apply h3
      simpa [qIsFull, hi] using hf
    · intro _
      exact ⟨c, rest, rfl⟩
    · simp [hw] at h5
      simp [h5]

lemma hinv_send_next_response (limit : Nat) (s : hstate) (h : HInv limit s) :
    HInv limit (send_next_response s) := by
  unfold send_next_response
  by_cases hw : s.write_active_
  · simpa [hw] using h
  · simpa [hw] using hinv_sendNext limit s h (by simpa using hw)

lemma hinv_onArrive (limit : Nat) (s : hstate) (h : HInv limit s) :
    HInv limit (onArrive limit s) := by
  obtain ⟨h1, h2, h3, h4, h5, h6⟩ := h
  unfold onArrive
  by_cases hr : s.rInFlight = 0
  · simpa [hr] using ⟨h1, h2, h3, h4, h5, h6⟩
  · have hnotfull : ¬ (limit ≤ s.items_.length) := by
      intro hle
      exact hr (h3 (by simpa [qIsFull] using hle))
    have hlen : s.items_.length + 1 ≤ limit := by omega
    simp only [hr, if_false]
    by_cases hf : qIsFull limit { s with rInFlight := s.rInFlight - 1, items_ := s.items_ ++ [none] } = true
    · rw [if_pos hf]
      refine ⟨?_, ?_, ?_, ?_, ?_, ?_⟩ <;> try dsimp only
      · exact h1
      · omega
      · intro _; omega
      · intro hwa
        obtain ⟨c, rest, hcr⟩ := h4 hwa
        exact ⟨c, rest ++ [none], by rw [hcr]; rfl⟩
      · exact h5
      · simpa using hlen
    · rw [if_neg hf]
      unfold doRead
      refine ⟨?_, ?_, ?_, ?_, ?_, ?_⟩ <;> try dsimp only
      · exact h1
      · omega
      · intro hfull
        simp only [qIsFull, decide_eq_true_eq] at hfull hf
        simp only [List.length_append, List.length_cons, List.length_nil] at hfull hf
        omega
      · intro hwa
        obtain ⟨c, rest, hcr⟩ := h4 hwa
        exact ⟨c, rest ++ [none], by rw [hcr]; rfl⟩
      · exact h5
      · simpa using hlen

lemma hinv_onComplete (limit : Nat) (i : Nat) (close : Bool) (s : hstate)
    (h : HInv limit s) : HInv limit (onComplete i close s) := by
  obtain ⟨h1, h2, h3, h4, h5, h6⟩ := h
  unfold onComplete
  by_cases hg : s.items_.getD i (some true) = none
  · rw [if_pos hg]
    apply hinv_send_next_response
    refine ⟨?_, ?_, ?_, ?_, ?_, ?_⟩ <;> try dsimp only
    · exact h1
    · exact h2
    · intro hf
      apply h3
      simp only [qIsFull, decide_eq_true_eq] at hf ⊢
      simpa [List.length_set] using hf
    · intro hwa
      obtain ⟨c, rest, hcr⟩ := h4 hwa
      match i with
      | 0 =>
        rw [hcr] at hg
        simp [List.getD] at hg
      | j + 1 =>
        exact ⟨c, rest.set j (some close), by rw [hcr]; rfl⟩
    · exact h5
    · simpa [List.length_set] using h6
  · rw [if_neg hg]
    exact ⟨h1, h2, h3, h4, h5, h6⟩

lemma hinv_onWriteDone (limit : Nat) (s : hstate) (hl : 1 ≤ limit)
    (h : HInv limit s) : HInv limit (onWriteDone limit s) := by
  obtain ⟨h1, h2, h3, h4, h5, h6⟩ := h
  unfold onWriteDone
  by_cases hw0 : s.wInFlight = 0
  · rw [if_pos hw0]
    exact ⟨h1, h2, h3, h4, h5, h6⟩
  · have hwa : s.write_active_ = true := by
      by_contra hc
      simp only [Bool.not_eq_true] at hc
      rw [hc] at h1
      simp at h1
      exact hw0 h1
    rw [if_neg hw0]
    obtain ⟨c, rest, hcr⟩ := h4 hwa
    rw [hcr]
    have hw1 : s.wInFlight = 1 := by
      rw [hwa] at h1
      simpa using h1
    have hlog : s.writeLog = List.range (s.base + 1) := by
      rw [h5, hwa, List.range_succ]
      simp
    have hlen : rest.length + 1 ≤ limit := by
      rw [hcr] at h6
      simpa using h6
    by_cases hcl : c = true
    · subst hcl
      simp only [if_true]
      refine ⟨?_, ?_, ?_, ?_, ?_, ?_⟩ <;> try dsimp only
      · simp [hw1]
      · exact h2
      · intro hf
        simp only [qIsFull, decide_eq_true_eq] at hf
        try dsimp only at hf
        omega
      · intro hfalse
        simp at hfalse
      · simpa using hlog
      · omega
    · have hcf : c = false := by simpa using hcl
      subst hcf
      simp only [Bool.false_eq_true, if_false]
      match hrest : rest with
      | some c2 :: rs =>
        unfold sendNext
        refine ⟨?_, ?_, ?_, ?_, ?_, ?_⟩ <;> try dsimp only
        · simp [hw1]
        · exact h2
        · intro hf
          simp only [qIsFull, decide_eq_true_eq] at hf
          try dsimp only at hf
          simp only [List.length_cons] at hf
          simp only [List.length_cons] at hlen
          omega
        · intro _
          exact ⟨c2, rs, rfl⟩
        · simp [hlog]
        · simp only [List.length_cons] at hlen ⊢
          omega
      | [] =>
        by_cases hfull : qIsFull limit s = true
        · have hr0 : s.rInFlight = 0 := h3 hfull
          rw [if_pos hfull]
          unfold doRead
          refine ⟨?_, ?_, ?_, ?_, ?_, ?_⟩ <;> try dsimp only
          · simp [hw1]
          · omega
          · intro hf
            simp only [qIsFull, decide_eq_true_eq] at hf
            try dsimp only at hf
            simp at hf
            omega
          · intro hfalse
            simp at hfalse
          · simpa using hlog
          · simp
        · rw [if_neg hfull]
          refine ⟨?_, ?_, ?_, ?_, ?_, ?_⟩ <;> try dsimp only
          · simp [hw1]
          · exact h2
          · intro hf
            simp only [qIsFull, decide_eq_true_eq] at hf
            try dsimp only at hf
            simp at hf
            omega
          · intro hfalse
            simp at hfalse
          · simpa using hlog
          · simp
      | none :: rs =>
        by_cases hfull : qIsFull limit s = true
        · have hr0 : s.rInFlight = 0 := h3 hfull
          rw [if_pos hfull]
          unfold doRead
          refine ⟨?_, ?_, ?_, ?_, ?_, ?_⟩ <;> try dsimp only
          · simp [hw1]
          · omega
          · intro hf
            simp only [qIsFull, decide_eq_true_eq] at hf
            try dsimp only at hf
            simp only [List.length_cons] at hf
            simp only [List.length_cons] at hlen
            omega
          · intro hfalse
            simp at hfalse
          · simpa using hlog
          · simp only [List.length_cons] at hlen ⊢
            omega
        · rw [if_neg hfull]
          refine ⟨?_, ?_, ?_, ?_, ?_, ?_⟩ <;> try dsimp only
          · simp [hw1]
          · exact h2
          · intro hf
            simp only [qIsFull, decide_eq_true_eq] at hf
            try dsimp only at hf
            simp only [List.length_cons] at hf
            simp only [List.length_cons] at hlen
            omega
          · intro hfalse
            simp at hfalse
          · simpa using hlog
          · simp only [List.length_cons] at hlen ⊢
            omega

lemma hinv_step (limit : Nat) (s : hstate) (a : http_act) (hl : 1 ≤ limit)
    (h : HInv limit s) : HInv limit (step limit s a) := by
  unfold step
  by_cases hc : s.closed_
  · simpa [hc] using h
  · simp only [hc, if_false]
    match a with
    | .arrive => exact hinv_onArrive limit s h
    | .complete i close => exact hinv_onComplete limit i close s h
    | .writeDone => exact hinv_onWriteDone limit s hl h

lemma hinv_foldl (limit : Nat) (l : List http_act) (hl : 1 ≤ limit) :
    ∀ s : hstate, HInv limit s → HInv limit (l.foldl (step limit) s) := by
  induction l with
  | nil => intro s h; simpa using h
  | cons a t ih =>
      intro s h
      simpa using ih (step limit s a) (hinv_step limit s a hl h)

lemma hinv_run (limit : Nat) (l : List http_act) (hl : 1 ≤ limit) :
    HInv limit (run limit l) :=
  hinv_foldl limit l hl hinit (hinv_hinit limit hl)

/-!  Shallow embedding of the WebSocket outbound send queue
     (websocket_session.cc lines 112-142).  Messages are identified by
     their enqueue index 0, 1, 2, ...  The executor that runs posted
     completion callbacks in order is modelled by the posted list. -/

/-- State of one WebSocket session's outbound machinery.
sent counts calls of websocket_session::send so far (the next message
gets this index), send_queue_ is the queued message indices,
inFlight lists the messages currently handed to ws_.async_write,
send_active_ mirrors the flag of the same name, posted is the FIFO of
completion callbacks handed to boost::asio::post but not yet run,
dispatched logs every async_write call in order, and fired logs every
completion callback actually run, in order. -/
structure wsstate where
  sent : Nat
  send_queue_ : List Nat
  inFlight : List Nat
  send_active_ : Bool
  posted : List Nat
  dispatched : List Nat
  fired : List Nat
deriving DecidableEq

/-- websocket_session::send_next (websocket_session.cc lines 117-142):
a no-op while send_active_ is set or the queue is empty; otherwise pop
the front message, set send_active_ and start the single frame write. -/
def ws_send_next (s : wsstate) : wsstate :=
  if s.send_active_ then s
  else
    match s.send_queue_ with
    | [] => s
    | h :: t =>
        { s with send_queue_ := t, send_active_ := true,
                 inFlight := s.inFlight ++ [h], dispatched := s.dispatched ++ [h] }

/-- Events of the outbound machinery: the user calls send, the in-flight
frame write completes (its handler clears send_active_, calls send_next
and only then posts the caller's completion callback), or the executor
runs the oldest posted completion callback. -/
inductive ws_act where
  | send : ws_act
  | complete : ws_act
  | runPosted : ws_act
deriving DecidableEq

/-- One step of the outbound machinery (websocket_session.cc lines
112-142: send enqueues then calls send_next; the async_write handler
clears send_active_, calls send_next and posts the callback). -/
def wstep (s : wsstate) (a : ws_act) : wsstate :=
  match a with
  | .send =>
      ws_send_next { s with sent := s.sent + 1, send_queue_ := s.send_queue_ ++ [s.sent] }
  | .complete =>
      match s.inFlight with
      | [] => s
      | h :: t =>
          let u := ws_send_next { s with inFlight := t, send_active_ := false }
          { u with posted := u.posted ++ [h] }
  | .runPosted =>
      match s.posted with
      | [] => s
      | h :: t => { s with posted := t, fired := s.fired ++ [h] }

/-- Initial outbound state of a fresh WebSocket session. -/
def wsinit : wsstate :=
  { sent := 0, send_queue_ := [], inFlight := [], send_active_ := false,
    posted := [], dispatched := [], fired := [] }

/-- Execution of a whole outbound event trace. -/
def wsrun (l : List ws_act) : wsstate := l.foldl wstep wsinit

/-- Invariant of the outbound machinery: frames are dispatched in index
order 0..d-1, completion callbacks are posted and run in the same order,
the queue holds exactly the not yet dispatched indices in order, the
send_active_ flag tracks the single in-flight write, and an idle machine
has an empty queue. -/
def WInv (s : wsstate) : Prop :=
  s.dispatched = List.range s.dispatched.length ∧
  s.fired ++ s.posted = List.range (s.fired.length + s.posted.length) ∧
  s.send_queue_ = List.range' s.dispatched.length (s.sent - s.dispatched.length) ∧
  s.dispatched.length ≤ s.sent ∧
  (s.send_active_ = true →
     s.dispatched.length = s.fired.length + s.posted.length + 1 ∧
     s.inFlight = [s.dispatched.length - 1]) ∧
  (s.send_active_ = false →
     s.dispatched.length = s.fired.length + s.posted.length ∧
     s.inFlight = [] ∧ s.dispatched.length = s.sent)

lemma winv_wsinit : WInv wsinit := by
  refine ⟨rfl, rfl, rfl, le_refl 0, ?_, ?_⟩
  · intro h
    simp [wsinit] at h
  · intro _
    exact ⟨rfl, rfl, rfl⟩

lemma range'_snoc (a n : Nat) : List.range' a (n + 1) = List.range' a n ++ [a + n] := by
  have h := @List.range'_concat 1 a n
  simpa using h

lemma winv_wstep (s : wsstate) (a : ws_act) (h : WInv s) : WInv (wstep s a) := by
  obtain ⟨h1, h2, h3, h4, h5, h6⟩ := h
  match a with
  | .send =>
    show WInv (ws_send_next { s with sent := s.sent + 1, send_queue_ := s.send_queue_ ++ [s.sent] })
    unfold ws_send_next
    by_cases ha : s.send_active_ = true
    · rw [if_pos ha]
      obtain ⟨ha1, ha2⟩ := h5 ha
      refine ⟨h1, h2, ?_, by dsimp only; omega, ?_, ?_⟩
      · dsimp only
        rw [h3]
        have : s.sent + 1 - s.dispatched.length = (s.sent - s.dispatched.length) + 1 := by omega
        rw [this, range'_snoc]
        congr 2
        omega
      · intro _
        exact ⟨ha1, ha2⟩
      · intro hf
        rw [hf] at ha
        simp at ha
    · simp only [Bool.not_eq_true] at ha
      rw [if_neg (by simp [ha])]
      obtain ⟨hb1, hb2, hb3⟩ := h6 ha
      have hq : s.send_queue_ = [] := by
        rw [h3, hb3]
        simp
      rw [hq]
      simp only [List.nil_append]
      refine ⟨?_, ?_, ?_, ?_, ?_, ?_⟩ <;> try dsimp only
      · rw [List.length_append, h1, List.length_range]
        simp only [List.length_cons, List.length_nil, List.range_succ]
        rw [← h1]
        have he : s.sent = s.dispatched.length := by omega
        rw [he]
      · exact h2
      · rw [List.length_append]
        simp only [List.length_cons, List.length_nil]
        have he : s.sent + 1 - (s.dispatched.length + 1) = 0 := by omega
        rw [he]
        rfl
      · rw [List.length_append]
        simp
        omega
      · intro _
        constructor
        · rw [List.length_append]
          simp
          omega
        · rw [hb2, List.length_append]
          simp
          omega
      · intro hfalse
        simp at hfalse
  | .complete =>
    unfold wstep
    match hif : s.inFlight with
    | [] =>
      exact ⟨h1, h2, h3, h4, h5, h6⟩
    | h0 :: t0 =>
      have ha : s.send_active_ = true := by
        by_contra hc
        simp only [Bool.not_eq_true] at hc
        obtain ⟨_, hb2, _⟩ := h6 hc
        rw [hif] at hb2
        simp at hb2
      obtain ⟨ha1, ha2⟩ := h5 ha
      rw [hif] at ha2
      have hh0 : h0 = s.dispatched.length - 1 := by
        have := List.head_eq_of_cons_eq ha2
        exact this
      have ht0 : t0 = [] := by
        have := List.tail_eq_of_cons_eq ha2
        exact this
      show WInv { ws_send_next { s with inFlight := t0, send_active_ := false } with
                  posted := (ws_send_next { s with inFlight := t0, send_active_ := false }).posted ++ [h0] }
      unfold ws_send_next
      rw [if_neg (by simp)]
      match hq : s.send_queue_ with
      | [] =>
        have hds : s.dispatched.length = s.sent := by
          rw [h3] at hq
          have hlen0 := congrArg List.length hq
          simp only [List.length_range', List.length_nil] at hlen0
          omega
        refine ⟨?_, ?_, ?_, ?_, ?_, ?_⟩ <;> try dsimp only
        · exact h1
        · rw [← List.append_assoc, h2]
          have hc : s.fired.length + (s.posted ++ [h0]).length
              = (s.fired.length + s.posted.length) + 1 := by
            simp only [List.length_append, List.length_cons, List.length_nil]
            omega
          rw [hc, List.range_succ, hh0]
          have hd : s.dispatched.length - 1 = s.fired.length + s.posted.length := by omega
          rw [hd]
        · have h0q : s.sent - s.dispatched.length = 0 := by omega
          rw [h0q]
          rfl
        · exact h4
        · intro hfalse
          simp at hfalse
        · intro _
          refine ⟨?_, ht0, hds⟩
          rw [List.length_append]
          simp only [List.length_cons, List.length_nil]
          omega
      | q0 :: qrest =>
        rw [h3] at hq
        have hpos : s.sent - s.dispatched.length ≠ 0 := by
          intro hc
          rw [hc] at hq
          exact absurd hq (by simp)
        obtain ⟨m, hm⟩ : ∃ m, s.sent - s.dispatched.length = m + 1 :=
          ⟨s.sent - s.dispatched.length - 1, by omega⟩
        rw [hm, List.range'_succ] at hq
        have hq0 : q0 = s.dispatched.length := (List.head_eq_of_cons_eq hq).symm
        have hqt : List.range' (s.dispatched.length + 1) m = qrest :=
          List.tail_eq_of_cons_eq hq
        refine ⟨?_, ?_, ?_, ?_, ?_, ?_⟩ <;> try dsimp only
        · have hlen : (s.dispatched ++ [q0]).length = s.dispatched.length + 1 := by simp
          rw [hlen, List.range_succ, ← h1, hq0]
        · rw [← List.append_assoc, h2]
          have hc : s.fired.length + (s.posted ++ [h0]).length
              = (s.fired.length + s.posted.length) + 1 := by
            simp only [List.length_append, List.length_cons, List.length_nil]
            omega
          rw [hc, List.range_succ, hh0]
          have hd : s.dispatched.length - 1 = s.fired.length + s.posted.length := by omega
          rw [hd]
        · have hlen : (s.dispatched ++ [q0]).length = s.dispatched.length + 1 := by simp
          rw [hlen, ← hqt]
          have hm2 : s.sent - (s.dispatched.length + 1) = m := by omega
          rw [hm2]
        · rw [List.length_append]
          simp only [List.length_cons, List.length_nil]
          omega
        · intro _
          constructor
          · rw [List.length_append, List.length_append]
            simp only [List.length_cons, List.length_nil]
            omega
          · rw [ht0, List.nil_append]
            have hlen : (s.dispatched ++ [q0]).length = s.dispatched.length + 1 := by simp
            rw [hlen, hq0]
            simp
        · intro hfalse
          simp at hfalse
  | .runPosted =>
    unfold wstep
    match hp : s.posted with
    | [] =>
      exact ⟨h1, h2, h3, h4, h5, h6⟩
    | p0 :: prest =>
      rw [hp] at h2
      refine ⟨?_, ?_, ?_, ?_, ?_, ?_⟩ <;> try dsimp only
      · exact h1
      · rw [List.length_append]
        simp only [List.length_cons, List.length_nil]
        rw [List.append_assoc]
        simp only [List.singleton_append]
        rw [h2]
        congr 1
        simp only [List.length_append, List.length_cons, List.length_nil]
        omega
      · exact h3
      · exact h4
      · intro ha
        obtain ⟨ha1, ha2⟩ := h5 ha
        refine ⟨?_, ha2⟩
        rw [List.length_append]
        simp only [List.length_cons, List.length_nil]
        rw [hp] at ha1
        simp only [List.length_cons] at ha1
        omega
      · intro ha
        obtain ⟨hb1, hb2, hb3⟩ := h6 ha
        refine ⟨?_, hb2, hb3⟩
        rw [List.length_append]
        simp only [List.length_cons, List.length_nil]
        rw [hp] at hb1
        simp only [List.length_cons] at hb1
        omega

lemma winv_foldl (l : List ws_act) :
    ∀ s : wsstate, WInv s → WInv (l.foldl wstep s) := by
  induction l with
  | nil => intro s h; simpa using h
  | cons a t ih =>
      intro s h
      simpa using ih (wstep s a) (winv_wstep s a h)

lemma winv_wsrun (l : List ws_act) : WInv (wsrun l) :=
  winv_foldl l wsinit winv_wsinit

/-!  Requests, shared settings, the read-side body limit, the upgrade
     decision, content negotiation and the response helpers. -/

/-- A parsed HTTP request, reduced to the attributes the engine
inspects: the byte size of its body, whether it carries the WebSocket
upgrade signature, its Accept-Encoding header value, its keep-alive
semantics and its protocol version. -/
structure http_req where
  body_size : Nat
  upgrade : Bool
  accept_encoding_ : String
  keep_alive_ : Bool
  version_ : Nat
deriving DecidableEq

/-- The shared per-server settings block
(include/net/web_server/web_server_settings.h).  The four handler
callbacks are modelled by their presence, the upgrade-acceptance
predicate by an optional boolean function on requests; the numeric
fields and their defaults are taken verbatim from the header
(60 s timeout in nanoseconds, 1024*1024 byte body limit, queue limit 8). -/
structure web_server_settings where
  http_req_cb_ : Bool := false
  ws_msg_cb_ : Bool := false
  ws_open_cb_ : Bool := false
  ws_close_cb_ : Bool := false
  ws_upgrade_ok_ : Option (http_req → Bool) := none
  timeout_ : Nat := 60 * 1000000000
  request_body_limit_ : Nat := 1024 * 1024
  request_queue_limit_ : Nat := 8

/-- Outcome of one parser-driven read of a request. -/
inductive read_outcome where
  | delivered (r : http_req) : read_outcome
  | body_limit_error : read_outcome
deriving DecidableEq

/-- Modelled from the spec: the Message Codec (the incremental Beast
request parser, external) enforces the body-size limit it was given;
a request whose body exceeds the limit makes the read fail instead of
producing a request. -/
def parse_with_limit (limit : Nat) (r : http_req) : read_outcome :=
  if r.body_size ≤ limit then .delivered r else .body_limit_error

/-- Modelled from the spec: do_read of the configurable http_session
(its driver, http_session.h, is not under src/) applies the configured
request_body_limit_ of the shared settings block to the parser before
issuing the asynchronous read.  (The superseded driver in
http_session.cc line 131 applies a hard-coded limit instead.) -/
def do_read_parse (st : web_server_settings) (r : http_req) : read_outcome :=
  parse_with_limit st.request_body_limit_ r

/-- The request the handler receives from a read outcome: on a read
error on_read returns via fail() without dispatching (http_session.cc
lines 150-152), so only a delivered request reaches the handler. -/
def handler_input : read_outcome → Option http_req
  | .delivered r => some r
  | .body_limit_error => none

/-- Outcome of on_read's upgrade decision for one parsed request. -/
inductive upgrade_outcome where
  | websocket_upgrade : upgrade_outcome
  | not_found_enqueued : upgrade_outcome
  | ordinary_dispatch : upgrade_outcome
deriving DecidableEq

/-- Modelled from the spec: the upgrade branch of on_read in the
configurable http_session (http_session.h, not under src/): a request
carrying the WebSocket upgrade signature is handed to a new WebSocket
session only if the upgrade-acceptance predicate ws_upgrade_ok_ of the
settings agrees, an absent predicate meaning always accept; if the
predicate declines, a not-found response is enqueued through the
ordinary response queue instead.  (The superseded driver in
http_session.cc lines 154-165 upgrades unconditionally.) -/
def on_read_upgrade (st : web_server_settings) (r : http_req) : upgrade_outcome :=
  if r.upgrade then
    match st.ws_upgrade_ok_ with
    | none => .websocket_upgrade
    | some ok => if ok r then .websocket_upgrade else .not_found_enqueued
  else .ordinary_dispatch

/-- Substring test on character lists: does the second list contain the
first as a contiguous run? -/
def list_has_sub (needle : List Char) : List Char → Bool
  | [] => needle.isEmpty
  | c :: t => needle.isPrefixOf (c :: t) || list_has_sub needle t

/-- Substring test on strings. -/
def contains_token (hay needle : String) : Bool :=
  list_has_sub needle.toList hay.toList

/-- The supported body encodings (content_encoding.h line 11). -/
inductive http_content_encoding where
  | IDENTITY : http_content_encoding
  | GZIP : http_content_encoding
deriving DecidableEq

/-- Modelled from the spec: select_content_encoding (declared in
content_encoding.h lines 13-14; its implementation file is not under
src/): simple substring matching of the client's Accept-Encoding value
against the one supported compressed scheme, gzip, falling back to
identity when nothing is recognized. -/
def select_content_encoding (accept_encoding : String) : http_content_encoding :=
  if contains_token accept_encoding "gzip" then .GZIP else .IDENTITY

/-- A string-bodied HTTP response envelope (the string_res_t shape of
aliases.h reduced to the fields the helpers set). -/
structure string_res where
  status_ : Nat
  version_ : Nat
  server_ : String
  content_type_ : String
  content_encoding_ : Option String := none
  body_ : String := ""
  keep_alive_ : Bool
  content_length_ : Option Nat := none
deriving DecidableEq

/-- Modelled from the spec: set_response_body(res, encoding, content)
(declared in content_encoding.h lines 16-18; implementation not under
src/): set the header corresponding to the chosen encoding and either
pass the payload through unchanged (identity) or encode it with the
external compressor. -/
def set_response_body (compress : String → String) (res : string_res)
    (enc : http_content_encoding) (content : String) : string_res :=
  match enc with
  | .IDENTITY => { res with content_encoding_ := none, body_ := content }
  | .GZIP => { res with content_encoding_ := some "gzip", body_ := compress content }

/-- Modelled from the spec: the request-driven overload of
set_response_body (content_encoding.h lines 20-22): negotiate the
encoding from the request's Accept-Encoding value, then apply it. -/
def set_response_body_req (compress : String → String) (res : string_res)
    (req : http_req) (content : String) : string_res :=
  set_response_body compress res (select_content_encoding req.accept_encoding_) content

/-- string_response (responses.cc lines 11-22): build the envelope with
the server identity, content type and the request's keep-alive
semantics, fill the body through content negotiation, then
prepare_payload records the payload length. -/
def string_response (compress : String → String) (req : http_req)
    (text : String) (status : Nat) (content_type : String) : string_res :=
  let res : string_res :=
    { status_ := status, version_ := req.version_, server_ := "Boost.Beast",
      content_type_ := content_type, keep_alive_ := req.keep_alive_ }
  let res := set_response_body_req compress res req text
  { res with content_length_ := some res.body_.length }

/-- Reading a response body back. -/
def read_body (res : string_res) : String := res.body_

/-!  WebSocket session lifecycle (websocket_session.cc): message
     delivery, the close notification of the destructor, and the whole
     inbound life of one session. -/

/-- How one WebSocket session can end: a clean close frame from the
peer (websocket::error::closed in on_read), a read error, a write
error, or a failed handshake (on_accept error). -/
inductive ws_end where
  | clean_close : ws_end
  | read_error : ws_end
  | write_error : ws_end
  | accept_error : ws_end
deriving DecidableEq

/-- Observable events of one WebSocket session's inbound life. -/
inductive ws_event where
  | opened : ws_event
  | msg_to_session_handler (i : Nat) : ws_event
  | msg_to_global_handler (i : Nat) : ws_event
  | close_to_session_handler : ws_event
  | close_to_global_handler : ws_event
deriving DecidableEq

/-- Inbound frame delivery (websocket_session.cc lines 35-44): a
per-session handler installed with on_msg takes the frame; only in its
absence is the global ws_msg_cb_ of the settings consulted. -/
def deliver_msg (on_msg_set : Bool) (st : web_server_settings) (i : Nat) : List ws_event :=
  if on_msg_set then [.msg_to_session_handler i]
  else if st.ws_msg_cb_ then [.msg_to_global_handler i] else []

/-- The destructor's close notification (websocket_session.cc lines
95-101): a per-session handler installed with on_close takes it; only
in its absence is the global ws_close_cb_ of the settings consulted. -/
def notify_close (on_close_set : Bool) (st : web_server_settings) : List ws_event :=
  if on_close_set then [.close_to_session_handler]
  else if st.ws_close_cb_ then [.close_to_global_handler] else []

/-- The inbound life of one WebSocket session as the list of observable
events it produces: a failed handshake ends the session before the open
notification; otherwise on_accept notifies the open observer and the
read loop delivers each inbound frame in turn until the session ends
(by a clean close frame or an error), after which the destructor runs
its close notification.  Every path ends in exactly one destructor
run. -/
def ws_lifecycle (st : web_server_settings) (on_msg_set on_close_set : Bool)
    (frames : List Nat) (e : ws_end) : List ws_event :=
  match e with
  | .accept_error => notify_close on_close_set st
  | _ =>
      (if st.ws_open_cb_ then [.opened] else [])
        ++ (frames.map (deliver_msg on_msg_set st)).flatten
        ++ notify_close on_close_set st

/-- Recognizer for close notifications. -/
def is_close_event : ws_event → Bool
  | .close_to_session_handler => true
  | .close_to_global_handler => true
  | _ => false

/-- Recognizer for frame deliveries to the global handler. -/
def is_global_msg : ws_event → Bool
  | .msg_to_global_handler _ => true
  | _ => false

/-- Recognizer for frame deliveries to the per-session handler. -/
def is_session_msg : ws_event → Bool
  | .msg_to_session_handler _ => true
  | _ => false

/-- Recognizer for close notifications to the global handler. -/
def is_global_close : ws_event → Bool
  | .close_to_global_handler => true
  | _ => false

/-!  The claims. -/

/-- Claim C1: for every event trace of one connection — requests arriving
pipelined, the handler completing them in any permutation, writes
finishing — the sequence of responses handed to the transport write is
exactly the arrival order 0, 1, 2, ...: the queue appends a pending
exchange per parsed request and send_next only ever writes the finished
head entry. -/
theorem c1_pipelined_responses_in_arrival_order (limit : Nat)
    (l : List http_act) (hl : 1 ≤ limit) :
    (run limit l).writeLog = List.range (run limit l).writeLog.length := by
  have h5 := (hinv_run limit l hl).2.2.2.2.1
  cases hwa : (run limit l).write_active_
  · rw [h5, hwa]
    simp
  · rw [h5, hwa]
    simp [List.range_succ]

/-- Witness for C1 at queue limit 8 on a trace whose two requests
complete in reversed order. -/
theorem c1_witness :
    (run 8 [.arrive, .arrive, .complete 1 true, .complete 0 false,
            .writeDone, .writeDone]).writeLog
      = List.range (run 8 [.arrive, .arrive, .complete 1 true, .complete 0 false,
                           .writeDone, .writeDone]).writeLog.length :=
  c1_pipelined_responses_in_arrival_order 8
    [.arrive, .arrive, .complete 1 true, .complete 0 false, .writeDone, .writeDone]
    (by decide)

/-- Claim C2: after a successful write of the head-of-queue response the
head entry is dequeued; if that response carried the do-not-keep-alive
signal the session closes instead of reading again; otherwise, if the
queue is non-empty and its new head already has its response stored, the
session continues by writing that next response (and issues no read);
otherwise a new read is issued exactly when the queue had been at its
capacity limit. -/
theorem c2_on_write_transition (limit : Nat) (s : hstate) (close : Bool)
    (rest : List slot) (hcl : s.closed_ = false) (hw : s.wInFlight = 1)
    (hi : s.items_ = some close :: rest) :
    ((step limit s .writeDone).items_ = rest ∧
     (step limit s .writeDone).base = s.base + 1) ∧
    (close = true →
       (step limit s .writeDone).closed_ = true ∧
       (step limit s .writeDone).readsIssued = s.readsIssued ∧
       (step limit s .writeDone).writeLog = s.writeLog) ∧
    (close = false →
       (step limit s .writeDone).closed_ = false ∧
       (∀ c2 rs, rest = some c2 :: rs →
          (step limit s .writeDone).writeLog = s.writeLog ++ [s.base + 1] ∧
          (step limit s .writeDone).readsIssued = s.readsIssued) ∧
       (rest.headD (some true) = none ∨ rest = [] →
          (step limit s .writeDone).writeLog = s.writeLog ∧
          ((step limit s .writeDone).readsIssued
             = if qIsFull limit s then s.readsIssued + 1 else s.readsIssued))) := by
  have hstep : step limit s .writeDone = onWriteDone limit s := by
    unfold step
    rw [if_neg (by simp [hcl])]
  rw [hstep]
  unfold onWriteDone
  rw [if_neg (by omega), hi]
  cases close
  · rcases rest with _ | ⟨o, rs⟩
    · by_cases hf : qIsFull limit s = true
      · simp only [Bool.false_eq_true, if_false, hf, if_true]
        unfold doRead
        refine ⟨⟨by first | rfl | trivial, by first | rfl | trivial⟩, ?_, ?_⟩
        · intro hfalse
          simp at hfalse
        · refine fun _ => ⟨by first | exact hcl | rfl | trivial, ?_, ?_⟩
          · intro c2 rs2 hco
            simp at hco
          · intro _
            exact ⟨by first | rfl | trivial, by first | rfl | trivial⟩
      · simp only [Bool.false_eq_true, if_false, hf]
        refine ⟨⟨by first | rfl | trivial, by first | rfl | trivial⟩, ?_, ?_⟩
        · intro hfalse
          simp at hfalse
        · refine fun _ => ⟨by first | exact hcl | rfl | trivial, ?_, ?_⟩
          · intro c2 rs2 hco
            simp at hco
          · intro _
            exact ⟨by first | rfl | trivial, by first | rfl | trivial⟩
    · rcases o with _ | c3
      · by_cases hf : qIsFull limit s = true
        · simp only [Bool.false_eq_true, if_false, hf, if_true]
          unfold doRead
          refine ⟨⟨by first | rfl | trivial, by first | rfl | trivial⟩, ?_, ?_⟩
          · intro hfalse
            simp at hfalse
          · refine fun _ => ⟨by first | exact hcl | rfl | trivial, ?_, ?_⟩
            · intro c2 rs2 hco
              simp at hco
            · intro _
              exact ⟨by first | rfl | trivial, by first | rfl | trivial⟩
        · simp only [Bool.false_eq_true, if_false, hf]
          refine ⟨⟨by first | rfl | trivial, by first | rfl | trivial⟩, ?_, ?_⟩
          · intro hfalse
            simp at hfalse
          · refine fun _ => ⟨by first | exact hcl | rfl | trivial, ?_, ?_⟩
            · intro c2 rs2 hco
              simp at hco
            · intro _
              exact ⟨by first | rfl | trivial, by first | rfl | trivial⟩
      · simp only [Bool.false_eq_true, if_false]
        unfold sendNext
        refine ⟨⟨by first | rfl | trivial, by first | rfl | trivial⟩, ?_, ?_⟩
        · intro hfalse
          simp at hfalse
        · refine fun _ => ⟨by first | exact hcl | rfl | trivial, ?_, ?_⟩
          · intro c2 rs2 hco
            exact ⟨by first | rfl | trivial, by first | rfl | trivial⟩
          · intro hco
            rcases hco with hco | hco <;> simp at hco
  · simp only [if_true]
    refine ⟨⟨by first | rfl | trivial, by first | rfl | trivial⟩, ?_, ?_⟩
    · intro _
      refine ⟨by first | rfl | trivial, by first | rfl | trivial, by first | rfl | trivial⟩
    · intro hfalse
      simp at hfalse

/-- Witness for C2: a session with two finished responses queued, the
head one keep-alive; its successful write dequeues the head and
continues immediately with the next response. -/
def c2_state : hstate :=
  { items_ := [some false, some true], write_active_ := true, wInFlight := 1,
    rInFlight := 0, base := 0, writeLog := [0], readsIssued := 2,
    closed_ := false }

theorem c2_witness :
    ((step 8 c2_state .writeDone).items_ = [some true] ∧
     (step 8 c2_state .writeDone).base = c2_state.base + 1) ∧
    ((step 8 c2_state .writeDone).writeLog = c2_state.writeLog ++ [c2_state.base + 1] ∧
     (step 8 c2_state .writeDone).readsIssued = c2_state.readsIssued) :=
  ⟨(c2_on_write_transition 8 c2_state false [some true] rfl rfl rfl).1,
   (((c2_on_write_transition 8 c2_state false [some true] rfl rfl rfl).2.2 rfl).2.1)
     true [] rfl⟩

/-- Claim C3: in every reachable state of one connection's HTTP session
at most one transport write and at most one read are outstanding
(send_next_response is a no-op while write_active_ is set and send_next
sets write_active_ before starting a write), and in every reachable
state of a WebSocket session's outbound machinery at most one frame
write is outstanding (send_next is a no-op while send_active_ is set). -/
theorem c3_single_write_single_read :
    (∀ (limit : Nat) (l : List http_act), 1 ≤ limit →
        (run limit l).wInFlight ≤ 1 ∧ (run limit l).rInFlight ≤ 1) ∧
    (∀ l : List ws_act, (wsrun l).inFlight.length ≤ 1) := by
  constructor
  · intro limit l hl
    obtain ⟨h1, h2, _, _, _, _⟩ := hinv_run limit l hl
    refine ⟨?_, h2⟩
    rw [h1]
    cases (run limit l).write_active_ <;> simp
  · intro l
    obtain ⟨_, _, _, _, h5, h6⟩ := winv_wsrun l
    cases ha : (wsrun l).send_active_
    · obtain ⟨_, hb2, _⟩ := h6 ha
      rw [hb2]
      simp
    · obtain ⟨_, ha2⟩ := h5 ha
      rw [ha2]
      simp

/-- Witness for C3 on concrete traces of both machines. -/
theorem c3_witness :
    ((run 8 [.arrive, .arrive, .complete 0 false]).wInFlight ≤ 1 ∧
     (run 8 [.arrive, .arrive, .complete 0 false]).rInFlight ≤ 1) ∧
    (wsrun [.send, .send, .complete]).inFlight.length ≤ 1 :=
  ⟨c3_single_write_single_read.1 8 [.arrive, .arrive, .complete 0 false] (by decide),
   c3_single_write_single_read.2 [.send, .send, .complete]⟩

lemma run_snoc (limit : Nat) (l : List http_act) (a : http_act) :
    run limit (l ++ [a]) = step limit (run limit l) a := by
  unfold run
  rw [List.foldl_append]
  rfl

lemma getD_replicate (n j : Nat) (a d : slot) :
    (List.replicate n a).getD j d = if j < n then a else d := by
  induction n generalizing j with
  | zero => simp
  | succ m ih =>
      rw [List.replicate_succ]
      match j with
      | 0 => simp
      | k + 1 =>
          show (List.replicate m a).getD k d = _
          rw [ih k]
          by_cases hk : k < m
          · rw [if_pos hk, if_pos (by omega)]
          · rw [if_neg hk, if_neg (by omega)]

/-- The session state reached after k pipelined requests have arrived on
a fresh connection with queue limit C and no handler completion has
happened yet. -/
lemma run_arrivals (C k : Nat) (hC : 1 ≤ C) (hk : k ≤ C) :
    run C (List.replicate k .arrive) =
      { items_ := List.replicate k none, write_active_ := false, wInFlight := 0,
        rInFlight := if k < C then 1 else 0, base := 0, writeLog := [],
        readsIssued := if k < C then k + 1 else C, closed_ := false } := by
  induction k with
  | zero =>
      have h0 : 0 < C := by omega
      rw [if_pos h0, if_pos h0]
      rfl
  | succ k ih =>
      have hk' : k ≤ C := by omega
      have hkC : k < C := by omega
      rw [List.replicate_succ' k http_act.arrive, run_snoc, ih hk']
      rw [if_pos hkC, if_pos hkC]
      unfold step onArrive
      rw [if_neg (by simp)]
      simp only []
      rw [if_neg (by simp)]
      have hitems : List.replicate k (none : slot) ++ [none]
          = List.replicate (k + 1) none := (List.replicate_succ' k none).symm
      by_cases hfin : k + 1 < C
      · rw [if_neg (by simp [qIsFull]; omega)]
        unfold doRead
        rw [if_pos hfin, if_pos hfin]
        simp only [hitems]
      · have heq : k + 1 = C := by omega
        rw [if_pos (by simp [qIsFull]; omega)]
        rw [if_neg hfin, if_neg hfin]
        simp only [hitems]
        rw [← heq]

/-- Counterexample to claim C4 as stated: with capacity 2 and two
dispatched, uncompleted requests, reading is paused (two reads were
issued in total and none is outstanding); completing request 1 — which
is not at the head of the queue — resumes no read at all: the response
is held and the session still has no read outstanding and has issued no
new read. -/
theorem c4_counterexample :
    (run 2 [.arrive, .arrive]).rInFlight = 0 ∧
    (run 2 [.arrive, .arrive]).readsIssued = 2 ∧
    (run 2 [.arrive, .arrive, .complete 1 false]).rInFlight = 0 ∧
    (run 2 [.arrive, .arrive, .complete 1 false]).readsIssued = 2 := by
  decide

/-- Shape of the writeDone step on a session whose keep-alive head
response is in flight and whose remaining entries are not ready:
the head is dequeued and a read is issued exactly when the queue had
been at its limit. -/
lemma step_writeDone_pause (limit : Nat) (rest : List slot) (wa : Bool)
    (r b rd : Nat) (log : List Nat)
    (hrest : rest.headD (some true) = none ∨ rest = []) :
    step limit ⟨some false :: rest, wa, 1, r, b, log, rd, false⟩ .writeDone
      = if qIsFull limit ⟨some false :: rest, wa, 1, r, b, log, rd, false⟩ = true
        then ⟨rest, false, 0, r + 1, b + 1, log, rd + 1, false⟩
        else ⟨rest, false, 0, r, b + 1, log, rd, false⟩ := by
  rcases rest with _ | ⟨o, rs⟩
  · rfl
  · rcases o with _ | c2
    · rfl
    · rcases hrest with h | h <;> simp at h

/-- Claim C4 (amended): with queue capacity C, once C requests have been
dispatched and none completed, the session has no read outstanding and a
further arrival event is ignored (reading is paused); completing the
request at the head of the queue, once its response is written, resumes
exactly one read; completing any request other than the head resumes no
read — its response is held until it becomes the head. -/
theorem c4_amended_backpressure (C : Nat) (hC : 1 ≤ C) :
    (run C (List.replicate C .arrive)).rInFlight = 0 ∧
    (run C (List.replicate C .arrive)).readsIssued = C ∧
    step C (run C (List.replicate C .arrive)) .arrive
      = run C (List.replicate C .arrive) ∧
    (run C (List.replicate C .arrive ++ [.complete 0 false, .writeDone])).readsIssued
      = C + 1 ∧
    (run C (List.replicate C .arrive ++ [.complete 0 false, .writeDone])).rInFlight
      = 1 ∧
    (∀ i, 1 ≤ i →
       (run C (List.replicate C .arrive ++ [.complete i false])).readsIssued = C ∧
       (run C (List.replicate C .arrive ++ [.complete i false])).rInFlight = 0) := by
  obtain ⟨D, rfl⟩ : ∃ D, C = D + 1 := ⟨C - 1, by omega⟩
  have hS := run_arrivals (D + 1) (D + 1) hC (le_refl _)
  rw [if_neg (by omega), if_neg (by omega)] at hS
  have hrepl : List.replicate (D + 1) (none : slot) = none :: List.replicate D none :=
    List.replicate_succ none D
  have hc1 : run (D + 1) (List.replicate (D + 1) .arrive ++ [.complete 0 false])
      = { items_ := some false :: List.replicate D none, write_active_ := true,
          wInFlight := 1, rInFlight := 0, base := 0, writeLog := [0],
          readsIssued := D + 1, closed_ := false } := by
    rw [run_snoc, hS, hrepl]
    unfold step
    rw [if_neg (by simp)]
    simp only []
    unfold onComplete
    rw [if_pos (show ((none :: List.replicate D none : List slot).getD 0 (some true))
          = none from rfl)]
    unfold send_next_response
    rw [if_neg (by simp)]
    simp only [List.set_cons_zero]
    unfold sendNext
    rfl
  have hrest : (List.replicate D (none : slot)).headD (some true) = none
      ∨ List.replicate D (none : slot) = [] := by
    cases D with
    | zero => exact Or.inr rfl
    | succ E => exact Or.inl rfl
  have hc2 : step (D + 1)
      { items_ := some false :: List.replicate D none, write_active_ := true,
        wInFlight := 1, rInFlight := 0, base := 0, writeLog := [0],
        readsIssued := D + 1, closed_ := false } .writeDone
      = { items_ := List.replicate D none, write_active_ := false, wInFlight := 0,
          rInFlight := 1, base := 1, writeLog := [0], readsIssued := D + 2,
          closed_ := false } := by
    rw [step_writeDone_pause (D + 1) (List.replicate D none) true 0 0 (D + 1) [0] hrest]
    rw [if_pos (by simp [qIsFull])]
  have hsplit : List.replicate (D + 1) http_act.arrive
        ++ [http_act.complete 0 false, http_act.writeDone]
      = (List.replicate (D + 1) http_act.arrive ++ [http_act.complete 0 false])
        ++ [http_act.writeDone] := by
    rw [List.append_assoc]
    rfl
  refine ⟨by rw [hS], by rw [hS], ?_, ?_, ?_, ?_⟩
  · rw [hS]
    rfl
  · rw [hsplit, run_snoc, hc1, hc2]
  · rw [hsplit, run_snoc, hc1, hc2]
  · intro i hi
    obtain ⟨j, rfl⟩ : ∃ j, i = j + 1 := ⟨i - 1, by omega⟩
    rw [run_snoc, hS, hrepl]
    unfold step
    rw [if_neg (by simp)]
    simp only []
    unfold onComplete
    rw [show ((none :: List.replicate D none : List slot).getD (j + 1) (some true))
          = (List.replicate D none).getD j (some true) from rfl]
    rw [getD_replicate]
    by_cases hj : j < D
    · rw [if_pos hj]
      rw [if_pos (show (none : slot) = none from rfl)]
      unfold send_next_response
      rw [if_neg (by simp)]
      rw [show ((none :: List.replicate D none : List slot).set (j + 1) (some false))
            = none :: (List.replicate D none).set j (some false) from rfl]
      unfold sendNext
      exact ⟨rfl, rfl⟩
    · rw [if_neg hj]
      rw [if_neg (by simp)]
      exact ⟨rfl, rfl⟩

/-- Witness for the amended C4 at capacity 2, with request 1 as the
non-head completion. -/
theorem c4_witness :
    (run 2 (List.replicate 2 .arrive)).rInFlight = 0 ∧
    (run 2 (List.replicate 2 .arrive ++ [.complete 0 false, .writeDone])).readsIssued = 3 ∧
    (run 2 (List.replicate 2 .arrive ++ [.complete 1 false])).readsIssued = 2 :=
  ⟨(c4_amended_backpressure 2 (by decide)).1,
   (c4_amended_backpressure 2 (by decide)).2.2.2.1,
   ((c4_amended_backpressure 2 (by decide)).2.2.2.2.2 1 (by decide)).1⟩

/-- Claim C5: the read path applies the configured maximum request body
size, whose default in the shared settings block is 1 MiB
(1024*1024 bytes); a request whose body exceeds the limit makes the read
fail and is never delivered to the handler, while a request within the
limit is delivered. -/
theorem c5_request_body_limit :
    ({} : web_server_settings).request_body_limit_ = 1024 * 1024 ∧
    ∀ (st : web_server_settings) (r : http_req),
      (st.request_body_limit_ < r.body_size →
         do_read_parse st r = .body_limit_error ∧
         handler_input (do_read_parse st r) = none) ∧
      (r.body_size ≤ st.request_body_limit_ →
         do_read_parse st r = .delivered r ∧
         handler_input (do_read_parse st r) = some r) := by
  refine ⟨rfl, fun st r => ⟨?_, ?_⟩⟩
  · intro h
    unfold do_read_parse parse_with_limit
    rw [if_neg (by omega)]
    exact ⟨rfl, rfl⟩
  · intro h
    unfold do_read_parse parse_with_limit
    rw [if_pos h]
    exact ⟨rfl, rfl⟩

/-- Witness for C5: a 2000000-byte body exceeds the default 1 MiB limit
and is rejected before the handler. -/
theorem c5_witness :
    do_read_parse {} ⟨2000000, false, "", true, 11⟩ = read_outcome.body_limit_error ∧
    handler_input (do_read_parse {} ⟨2000000, false, "", true, 11⟩) = none :=
  (c5_request_body_limit.2 {} ⟨2000000, false, "", true, 11⟩).1 (by decide)

/-- Claim C6: a parsed request carrying the WebSocket upgrade signature
becomes a WebSocket session exactly when the upgrade-acceptance
predicate agrees — an absent predicate always accepts, a predicate
returning true accepts — while a predicate returning false routes an
ordinary not-found response through the response queue and creates no
WebSocket session. -/
theorem c6_upgrade_acceptance (st : web_server_settings) (r : http_req)
    (hu : r.upgrade = true) :
    (st.ws_upgrade_ok_ = none → on_read_upgrade st r = .websocket_upgrade) ∧
    (∀ ok, st.ws_upgrade_ok_ = some ok → ok r = true →
       on_read_upgrade st r = .websocket_upgrade) ∧
    (∀ ok, st.ws_upgrade_ok_ = some ok → ok r = false →
       on_read_upgrade st r = .not_found_enqueued ∧
       on_read_upgrade st r ≠ .websocket_upgrade) := by
  unfold on_read_upgrade
  rw [if_pos hu]
  refine ⟨?_, ?_, ?_⟩
  · intro hn
    rw [hn]
  · intro ok hok htrue
    rw [hok]
    simp only []
    rw [if_pos htrue]
  · intro ok hok hfalse
    rw [hok]
    simp only []
    rw [if_neg (by rw [hfalse]; simp)]
    exact ⟨rfl, by simp⟩

/-- Witness for C6: a predicate that always declines turns the upgrade
request into a not-found response and no WebSocket session. -/
def c6_settings : web_server_settings := { ws_upgrade_ok_ := some (fun _ => false) }

theorem c6_witness :
    on_read_upgrade c6_settings ⟨0, true, "", true, 11⟩
        = upgrade_outcome.not_found_enqueued ∧
    on_read_upgrade c6_settings ⟨0, true, "", true, 11⟩
        ≠ upgrade_outcome.websocket_upgrade :=
  (c6_upgrade_acceptance c6_settings ⟨0, true, "", true, 11⟩ rfl).2.2
    (fun _ => false) rfl rfl

/-- Claim C7: for every trace of the WebSocket outbound machinery, the
frames handed to the transport appear in enqueue order 0, 1, 2, ...;
completion callbacks run in that same order; whenever the machine is
idle every queued send has been dispatched (N sends yield N frames) and
once also all callbacks ran they number N in order; and a caller's
callback runs only after the next queued send has been dispatched. -/
theorem c7_send_order_and_callbacks (l : List ws_act) :
    (wsrun l).dispatched = List.range (wsrun l).dispatched.length ∧
    (wsrun l).fired = List.range (wsrun l).fired.length ∧
    ((wsrun l).send_active_ = false →
       (wsrun l).dispatched = List.range (wsrun l).sent) ∧
    ((wsrun l).send_active_ = false → (wsrun l).posted = [] →
       (wsrun l).fired = List.range (wsrun l).sent) ∧
    (∀ i, i ∈ (wsrun l).fired → i + 1 < (wsrun l).sent →
       (i + 1) ∈ (wsrun l).dispatched) := by
  obtain ⟨h1, h2, h3, h4, h5, h6⟩ := winv_wsrun l
  have hfired : (wsrun l).fired = List.range (wsrun l).fired.length := by
    have ht : ((wsrun l).fired ++ (wsrun l).posted).take (wsrun l).fired.length
        = (wsrun l).fired := List.take_left _ _
    rw [h2, List.take_range] at ht
    rw [← ht]
    simp only [List.length_range]
  refine ⟨h1, hfired, ?_, ?_, ?_⟩
  · intro ha
    obtain ⟨hb1, hb2, hb3⟩ := h6 ha
    rw [h1, hb3]
  · intro ha hp
    obtain ⟨hb1, hb2, hb3⟩ := h6 ha
    rw [hfired]
    rw [hp] at hb1
    simp only [List.length_nil] at hb1
    congr 1
    omega
  · intro i hi hnext
    rw [hfired, List.mem_range] at hi
    rw [h1, List.mem_range]
    cases ha : (wsrun l).send_active_
    · obtain ⟨hb1, hb2, hb3⟩ := h6 ha
      omega
    · obtain ⟨ha1, ha2⟩ := h5 ha
      omega

/-- Witness for C7: two sends completing and firing in order; the idle
machine has dispatched and fired exactly the two frames in order, and
frame 1 was dispatched before callback 0 could observe it. -/
theorem c7_witness :
    (wsrun [.send, .send, .complete, .complete, .runPosted, .runPosted]).dispatched
        = List.range (wsrun [.send, .send, .complete, .complete, .runPosted, .runPosted]).sent ∧
    (wsrun [.send, .send, .complete, .complete, .runPosted, .runPosted]).fired
        = List.range (wsrun [.send, .send, .complete, .complete, .runPosted, .runPosted]).sent ∧
    (1 : Nat) ∈ (wsrun [.send, .send, .complete, .complete, .runPosted, .runPosted]).dispatched :=
  ⟨(c7_send_order_and_callbacks [.send, .send, .complete, .complete, .runPosted, .runPosted]).2.2.1
     (by decide),
   (c7_send_order_and_callbacks [.send, .send, .complete, .complete, .runPosted, .runPosted]).2.2.2.1
     (by decide) (by decide),
   (c7_send_order_and_callbacks [.send, .send, .complete, .complete, .runPosted, .runPosted]).2.2.2.2
     0 (by decide) (by decide)⟩

lemma countP_deliver_close (b : Bool) (st : web_server_settings) (i : Nat) :
    (deliver_msg b st i).countP is_close_event = 0 := by
  unfold deliver_msg
  cases b
  · cases hm : st.ws_msg_cb_ <;> simp [is_close_event]
  · simp [is_close_event]

lemma countP_frames_close (b : Bool) (st : web_server_settings) (frames : List Nat) :
    ((frames.map (deliver_msg b st)).flatten).countP is_close_event = 0 := by
  induction frames with
  | nil => rfl
  | cons x t ih =>
      simp only [List.map_cons, List.flatten_cons, List.countP_append]
      rw [countP_deliver_close, ih]

lemma countP_notify_close (oc : Bool) (st : web_server_settings)
    (hobs : oc = true ∨ st.ws_close_cb_ = true) :
    (notify_close oc st).countP is_close_event = 1 := by
  unfold notify_close
  rcases hobs with h | h
  · rw [h]
    simp [is_close_event]
  · cases oc
    · simp [h, is_close_event]
    · simp [is_close_event]

/-- Claim C8: the close observer fires exactly once per WebSocket
session, whether the session ended by a clean close frame, a read
error, a write error or a failed handshake, as long as a close observer
is configured (per-session or global). -/
theorem c8_close_observer_exactly_once (st : web_server_settings)
    (on_msg_set on_close_set : Bool) (frames : List Nat) (e : ws_end)
    (hobs : on_close_set = true ∨ st.ws_close_cb_ = true) :
    (ws_lifecycle st on_msg_set on_close_set frames e).countP is_close_event = 1 := by
  have hn := countP_notify_close on_close_set st hobs
  have hf := countP_frames_close on_msg_set st frames
  cases e <;>
    unfold ws_lifecycle <;>
    (try cases ho : st.ws_open_cb_) <;>
    simp only [List.countP_append, hn, hf, if_true, if_false,
               List.countP_nil, List.countP_cons, is_close_event] <;>
    rfl

/-- Witness for C8: a session with only the global close observer that
delivered two frames and then hit a read error notifies closure
exactly once. -/
theorem c8_witness :
    (ws_lifecycle { ws_close_cb_ := true } false false [0, 1]
        ws_end.read_error).countP is_close_event = 1 :=
  c8_close_observer_exactly_once { ws_close_cb_ := true } false false [0, 1]
    .read_error (Or.inr rfl)

/-- Claim C9: content negotiation — an Accept-Encoding value containing
the supported compressed scheme gzip makes the constructed response
declare gzip; a value with no recognized scheme falls back to identity
encoding, and reading the identity-encoded body back yields the
original text unchanged. -/
theorem c9_content_negotiation (compress : String → String) (req : http_req)
    (text : String) (status : Nat) (ct : String) :
    (contains_token req.accept_encoding_ "gzip" = true →
       (string_response compress req text status ct).content_encoding_ = some "gzip") ∧
    (contains_token req.accept_encoding_ "gzip" = false →
       select_content_encoding req.accept_encoding_ = .IDENTITY ∧
       (string_response compress req text status ct).content_encoding_ = none ∧
       read_body (string_response compress req text status ct) = text) := by
  constructor
  · intro h
    unfold string_response set_response_body_req select_content_encoding
    rw [if_pos h]
    rfl
  · intro h
    have hsel : select_content_encoding req.accept_encoding_ = .IDENTITY := by
      unfold select_content_encoding
      rw [if_neg (by rw [h]; simp)]
    refine ⟨hsel, ?_, ?_⟩
    · unfold string_response set_response_body_req
      rw [hsel]
      rfl
    · unfold read_body string_response set_response_body_req
      rw [hsel]
      rfl

/-- Witness for C9: a gzip-accepting request gets a gzip-declared
response, a request accepting only br falls back to identity and its
body round-trips unchanged. -/
theorem c9_witness :
    (string_response (fun s => s) ⟨0, false, "gzip, deflate", true, 11⟩
        "hello" 200 "text/html").content_encoding_ = some "gzip" ∧
    read_body (string_response (fun s => s) ⟨0, false, "br", true, 11⟩
        "hello" 200 "text/html") = "hello" :=
  ⟨(c9_content_negotiation (fun s => s) ⟨0, false, "gzip, deflate", true, 11⟩
      "hello" 200 "text/html").1 (by decide),
   ((c9_content_negotiation (fun s => s) ⟨0, false, "br", true, 11⟩
      "hello" 200 "text/html").2 (by decide)).2.2⟩

lemma countP_deliver_global_of_local (st : web_server_settings) (i : Nat) :
    (deliver_msg true st i).countP is_global_msg = 0 := by
  unfold deliver_msg
  simp [is_global_msg]

lemma countP_deliver_session_of_local (st : web_server_settings) (i : Nat) :
    (deliver_msg true st i).countP is_session_msg = 1 := by
  unfold deliver_msg
  simp [is_session_msg]

lemma countP_frames_global_of_local (st : web_server_settings) (frames : List Nat) :
    ((frames.map (deliver_msg true st)).flatten).countP is_global_msg = 0 := by
  induction frames with
  | nil => rfl
  | cons x t ih =>
      simp only [List.map_cons, List.flatten_cons, List.countP_append]
      rw [countP_deliver_global_of_local, ih]

lemma countP_frames_session_of_local (st : web_server_settings) (frames : List Nat) :
    ((frames.map (deliver_msg true st)).flatten).countP is_session_msg
      = frames.length := by
  induction frames with
  | nil => rfl
  | cons x t ih =>
      simp only [List.map_cons, List.flatten_cons, List.countP_append, List.length_cons]
      rw [countP_deliver_session_of_local, ih]
      omega

/-- Claim C10: a per-session message handler registered through on_msg
receives every inbound frame and the global ws_msg_cb_ of the shared
settings is never invoked for that session; likewise a per-session
on_close handler completely replaces the global ws_close_cb_ at
teardown (which still fires exactly once). -/
theorem c10_session_handlers_replace_globals (st : web_server_settings)
    (on_msg_set on_close_set : Bool) (frames : List Nat) (e : ws_end) :
    (on_msg_set = true →
       (ws_lifecycle st on_msg_set on_close_set frames e).countP is_global_msg = 0 ∧
       (e ≠ .accept_error →
          (ws_lifecycle st on_msg_set on_close_set frames e).countP is_session_msg
            = frames.length)) ∧
    (on_close_set = true →
       (ws_lifecycle st on_msg_set on_close_set frames e).countP is_global_close = 0 ∧
       (ws_lifecycle st on_msg_set on_close_set frames e).countP is_close_event = 1) := by
  constructor
  · intro hm
    subst hm
    constructor
    · cases e <;>
        unfold ws_lifecycle <;>
        (try cases ho : st.ws_open_cb_) <;>
        simp only [List.countP_append, countP_frames_global_of_local,
                   if_true, if_false, List.countP_nil, List.countP_cons] <;>
        unfold notify_close <;>
        (cases on_close_set <;> cases hc : st.ws_close_cb_ <;>
          simp [is_global_msg])
    · intro he
      cases e <;>
        first
        | exact absurd rfl he
        | (unfold ws_lifecycle <;>
           (try cases ho : st.ws_open_cb_) <;>
           simp only [List.countP_append, countP_frames_session_of_local,
                      if_true, if_false, List.countP_nil, List.countP_cons] <;>
           unfold notify_close <;>
           (cases on_close_set <;> cases hc : st.ws_close_cb_ <;>
             simp [is_session_msg]))
  · intro hc
    subst hc
    have hn1 : (notify_close true st).countP is_global_close = 0 := by
      unfold notify_close
      simp [is_global_close]
    have hn2 : (notify_close true st).countP is_close_event = 1 := by
      unfold notify_close
      simp [is_close_event]
    have hg : ∀ b i, (deliver_msg b st i).countP is_global_close = 0 := by
      intro b i
      unfold deliver_msg
      cases b
      · cases hm : st.ws_msg_cb_ <;> simp [is_global_close]
      · simp [is_global_close]
    have hgf : ∀ b, ((frames.map (deliver_msg b st)).flatten).countP is_global_close = 0 := by
      intro b
      induction frames with
      | nil => rfl
      | cons x t ih =>
          simp only [List.map_cons, List.flatten_cons, List.countP_append]
          rw [hg, ih]
    constructor
    · cases e <;>
        unfold ws_lifecycle <;>
        (try cases ho : st.ws_open_cb_) <;>
        simp only [List.countP_append, hgf, hn1, if_true, if_false,
                   List.countP_nil, List.countP_cons, is_global_close] <;>
        rfl
    · have hf := countP_frames_close on_msg_set st frames
      cases e <;>
        unfold ws_lifecycle <;>
        (try cases ho : st.ws_open_cb_) <;>
        simp only [List.countP_append, hf, hn2, if_true, if_false,
                   List.countP_nil, List.countP_cons, is_close_event] <;>
        rfl

/-- Witness for C10: with both per-session handlers set and both global
callbacks configured, two frames and teardown go only to the
per-session handlers. -/
theorem c10_witness :
    (ws_lifecycle { ws_msg_cb_ := true, ws_close_cb_ := true } true true [0, 1]
        ws_end.clean_close).countP is_global_msg = 0 ∧
    (ws_lifecycle { ws_msg_cb_ := true, ws_close_cb_ := true } true true [0, 1]
        ws_end.clean_close).countP is_session_msg = 2 ∧
    (ws_lifecycle { ws_msg_cb_ := true, ws_close_cb_ := true } true true [0, 1]
        ws_end.clean_close).countP is_global_close = 0 :=
  ⟨((c10_session_handlers_replace_globals { ws_msg_cb_ := true, ws_close_cb_ := true }
      true true [0, 1] .clean_close).1 rfl).1,
   ((c10_session_handlers_replace_globals { ws_msg_cb_ := true, ws_close_cb_ := true }
      true true [0, 1] .clean_close).1 rfl).2 (by simp),
   ((c10_session_handlers_replace_globals { ws_msg_cb_ := true, ws_close_cb_ := true }
      true true [0, 1] .clean_close).2 rfl).1⟩

end Net
